import Mathlib

/-!
Verification of the pipeline runner `runpipeline.c`.

The C program executes a chain of commands connected by anonymous pipes:
it parses a flat argument list into delimiter-separated stages, creates
N-1 pipes, forks/execs each stage with redirected descriptors, and waits
on every stage in launch order.

The shallow embedding below translates each C function into a Lean
function.  OS-level state (the process's open file-descriptor table and
the next descriptor the kernel would hand out) is threaded explicitly
through an `OSState`.  Fallible OS calls (`pipe`, `fork`, `waitpid`) are
parameterised by explicit oracles so that both the success paths and the
failure paths of the C code can be examined.
-/

namespace RunPipeline

/-- `#define MAX_NUM_PROGRAMS 10` in runpipeline.c. -/
def MAX_NUM_PROGRAMS : Nat := 10

/-- `#define FD_STDIN 0`. -/
def FD_STDIN : Int := 0

/-- `#define FD_STDOUT 1`. -/
def FD_STDOUT : Int := 1

/-- The stage delimiter token recognised by `parse_command_line` (the C code
compares each argument against the literal string `"--"`). -/
def DELIM : String := "--"

/-- `EXIT_FAILURE`, the code passed to `exit` by `die()`. -/
def EXIT_FAILURE : Int := 1

/-- The C `struct program_tag`: one pipeline stage's argument vector,
argument count, recorded child pid, and the two pipe-endpoint fields.
`-1` in `pid`/`fd_in`/`fd_out` is the C code's "absent" marker
(set by `init_program`). -/
structure Program where
  argv : List String
  argc : Nat
  pid : Int
  fd_in : Int
  fd_out : Int
deriving Repr, DecidableEq

/-- `init_program` combined with the argv-filling loop of
`parse_command_line`: a freshly parsed stage has its arguments stored,
`argc` set, and `pid = fd_in = fd_out = -1`. -/
def init_program (args : List String) : Program :=
  { argv := args, argc := args.length, pid := -1, fd_in := -1, fd_out := -1 }

/-- The three configuration errors `parse_command_line` can die with:
`"Too many programs."`, `"Empty program."`, `"Last program is empty."`. -/
inductive ParseError where
  | tooMany
  | emptyProgram
  | lastEmpty
deriving Repr, DecidableEq

/-- The diagnostic message `die` prints for each parse error. -/
def parseErrMsg : ParseError → String
  | .tooMany => "Too many programs."
  | .emptyProgram => "Empty program."
  | .lastEmpty => "Last program is empty."

/-- Token-level transcription of the nested loops of `parse_command_line`.
`count` is the number of completed groups (`prog_count`), `g` holds the
tokens of the group currently being collected, in reverse.  The checks
appear in the C order: at a delimiter the current group's emptiness check
(`ia == 0`, "Empty program.") comes first, then the end-of-arguments check
after skipping the delimiter (`cur_arg == argc`, "Last program is empty."),
and the stage-count check (`prog_count == max_num_progs`,
"Too many programs.") fires at the top of the outer loop, i.e. exactly when
a further group is about to start. -/
def parse_aux (maxN : Nat) : Nat → List String → List String →
    Except ParseError (List (List String))
  | _, g, [] =>
    if g = [] then .error .emptyProgram else .ok [g.reverse]
  | count, g, t :: ts =>
    if t = DELIM then
      if g = [] then .error .emptyProgram
      else if ts = [] then .error .lastEmpty
      else if count + 1 = maxN then .error .tooMany
      else (parse_aux maxN (count + 1) [] ts).map (g.reverse :: ·)
    else parse_aux maxN count (t :: g) ts

/-- `parse_command_line`: splits the argument tokens (everything after
`argv[0]`) into stage argument vectors.  With no tokens the outer loop
never runs and zero programs are returned (the `main` wrapper rejects that
case before calling the parser); otherwise the outer loop's first
iteration begins with the stage-count check. -/
def parse_command_line (maxN : Nat) (tokens : List String) :
    Except ParseError (List (List String)) :=
  match tokens with
  | [] => .ok []
  | _ :: _ =>
    if maxN = 0 then .error .tooMany
    else parse_aux maxN 0 [] tokens

/-- Specification-side split of a token list into delimiter-separated
groups: `splitGroups ["a", "--", "b"] = [["a"], ["b"]]`; a trailing
delimiter yields a trailing empty group.  The result is always
nonempty. -/
def splitGroups : List String → List (List String)
  | [] => [[]]
  | t :: ts =>
    if t = DELIM then [] :: splitGroups ts
    else
      match splitGroups ts with
      | [] => [[t]]
      | g :: gs => (t :: g) :: gs

/-- Index of the first empty group in a group list (its length if every
group is nonempty). -/
def firstEmptyIdx : List (List String) → Nat
  | [] => 0
  | g :: gs => if g = [] then 0 else firstEmptyIdx gs + 1

/-- The groups still to be completed by `parse_aux maxN count g toks`:
the group in progress (`g` reversed, continued by the head group of the
remaining tokens) followed by the remaining groups. -/
def adjGroups (g : List String) (toks : List String) : List (List String) :=
  (g.reverse ++ (splitGroups toks).headI) :: (splitGroups toks).tail

/-- The behaviour of `parse_command_line` with stage bound `maxN`,
expressed over the delimiter-split groups `G` of the token list.  Writing
`L` for the number of groups and `E` for the index of the first empty
group: all groups nonempty and within the bound parse successfully; an
empty group strictly before the final position reached before the bound
trips reports "Empty program."; an empty final group (a trailing
delimiter) with all earlier groups nonempty and at most `maxN` real groups
reports "Last program is empty."; every other failing shape reports
"Too many programs.". -/
def parseSpec (maxN : Nat) (G : List (List String)) :
    Except ParseError (List (List String)) :=
  if firstEmptyIdx G = G.length ∧ G.length ≤ maxN then .ok G
  else if firstEmptyIdx G + 1 < G.length ∧ firstEmptyIdx G < maxN then .error .emptyProgram
  else if firstEmptyIdx G + 1 = G.length ∧ G.length ≤ maxN + 1 then .error .lastEmpty
  else .error .tooMany

/-- The part of the orchestrator process's OS state the program observes:
the open file descriptors it holds and the next descriptor the kernel
would allocate (the kernel hands out fresh, unused numbers). -/
structure OSState where
  nextFd : Int
  openFds : List Int
deriving Repr, DecidableEq

/-- The state of a freshly started process: descriptors 0, 1, 2 (stdin,
stdout, stderr) open, 3 the next free descriptor. -/
def initialOS : OSState :=
  { nextFd := 3, openFds := [0, 1, 2] }

/-- Result of running a piece of the program: either a value, or the
whole process terminated through `die(msg)` (which prints `msg` and calls
`exit(EXIT_FAILURE)`); `died` records the OS state at the moment of
termination, so that which descriptors were still open can be observed. -/
inductive Outcome (α : Type) where
  | ok : α → Outcome α
  | died : String → OSState → Outcome α
deriving Repr, DecidableEq

/-- One `pipe(fd)` call.  `callIdx` numbers the calls made so far; the
`failAt` oracle selects which call (if any) fails at the OS level.  On
success the kernel returns two fresh descriptors, `fd[0]` (read end) below
`fd[1]` (write end), both now open in the calling process. -/
def pipeCall (st : OSState) (callIdx : Nat) (failAt : Option Nat) :
    Option (Int × Int × OSState) :=
  if failAt = some callIdx then none
  else some (st.nextFd, st.nextFd + 1,
    { nextFd := st.nextFd + 2, openFds := st.openFds ++ [st.nextFd, st.nextFd + 1] })

/-- One `close(fd)` call: `fd` must be open (the C code dies through
`check_return_value` if `close` fails); afterwards it is open no more. -/
def closeFd (st : OSState) (fd : Int) : Outcome OSState :=
  if fd ∈ st.openFds then .ok { st with openFds := st.openFds.erase fd }
  else .died "close()" st

/-- Point update of the stage array (a fixed C array, modelled as a
function from indices): set stage `j`'s `fd_out`. -/
def setFdOut (progs : Nat → Program) (j : Nat) (v : Int) : Nat → Program :=
  fun k => if k = j then { progs j with fd_out := v } else progs k

/-- Set stage `j`'s `fd_in`. -/
def setFdIn (progs : Nat → Program) (j : Nat) (v : Int) : Nat → Program :=
  fun k => if k = j then { progs j with fd_in := v } else progs k

/-- Set stage `j`'s recorded `pid`. -/
def setPid (progs : Nat → Program) (j : Nat) (v : Int) : Nat → Program :=
  fun k => if k = j then { progs j with pid := v } else progs k

/-- Mark stage `j`'s endpoint fields as released
(`prog->fd_in = prog->fd_out = -1`). -/
def clearFds (progs : Nat → Program) (j : Nat) : Nat → Program :=
  fun k => if k = j then { progs j with fd_in := -1, fd_out := -1 } else progs k

/-- The loop body chain of `prepare_pipes`: starting at pipe call
`callIdx` with `r` calls remaining, create a pipe per remaining call and
assign its write end to the left stage (`programs[i-1].fd_out`) and its
read end to the right stage (`programs[i].fd_in`); on `pipe` failure the
process dies at once via `die("pipe() failed.")`. -/
def prepare_pipes_go (failAt : Option Nat) :
    Nat → Nat → (Nat → Program) → OSState → Outcome ((Nat → Program) × OSState)
  | _, 0, progs, st => .ok (progs, st)
  | callIdx, r + 1, progs, st =>
    match pipeCall st callIdx failAt with
    | none => .died "pipe() failed." st
    | some (rd, wr, st') =>
      prepare_pipes_go failAt (callIdx + 1) r
        (setFdIn (setFdOut progs callIdx wr) (callIdx + 1) rd) st'

/-- `prepare_pipes`: for `num_programs` stages, run the loop
`for i = 1 .. num_programs-1`, i.e. `num_programs - 1` pipe calls. -/
def prepare_pipes (failAt : Option Nat) (num_programs : Nat)
    (progs : Nat → Program) (st : OSState) : Outcome ((Nat → Program) × OSState) :=
  prepare_pipes_go failAt 0 (num_programs - 1) progs st

/-- A system call the child performs between `fork` and the end of its
life: a `dup2`, a `close`, the `execvp`, or (only if `execvp` returned,
i.e. failed) the `exit` inside `die("execvp() failed.")`. -/
inductive Action where
  | dup2 (src : Int) (dst : Int)
  | close (fd : Int)
  | exec (path : String) (args : List String)
  | exit (code : Int)
deriving Repr, DecidableEq

/-- The descriptors the child closes, in order: for every stage
`i = cur .. num_programs-1`, `fd_in` then `fd_out`, each only when the
field still holds a descriptor (`>= 0`). -/
def closeList (progs : Nat → Program) (num_programs cur : Nat) : List Int :=
  (List.range' cur (num_programs - cur)).flatMap fun i =>
    (if 0 ≤ (progs i).fd_in then [(progs i).fd_in] else []) ++
    (if 0 ≤ (progs i).fd_out then [(progs i).fd_out] else [])

/-- The child branch of `start_program`: redirect stdin from `fd_in` when
`cur > 0`, redirect stdout to `fd_out` when `cur != num_programs - 1`,
close all pipe descriptors of stages `>= cur`, then `execvp`.  If the
exec fails the child dies with `exit(EXIT_FAILURE)`; the `execOk` oracle
says whether the exec succeeds. -/
def child_trace (progs : Nat → Program) (num_programs cur : Nat) (execOk : Bool) :
    List Action :=
  (if 0 < cur then [Action.dup2 (progs cur).fd_in FD_STDIN] else []) ++
  (if cur ≠ num_programs - 1 then [Action.dup2 (progs cur).fd_out FD_STDOUT] else []) ++
  (closeList progs num_programs cur).map Action.close ++
  [Action.exec (progs cur).argv.headI (progs cur).argv] ++
  (if execOk then [] else [Action.exit EXIT_FAILURE])

/-- `start_program`: fork (`forkRes` is the value `fork()` returns in the
parent; negative means failure, which is fatal via `die`).  In the parent:
record the child pid, close the parent's copies of the endpoints just
handed to the child (`fd_in` when `cur > 0`, `fd_out` when
`cur != num_programs - 1`, each only if still held), and mark both
endpoint fields released.  The child's behaviour is returned as its
action trace. -/
def start_program (progs : Nat → Program) (num_programs cur : Nat)
    (forkRes : Int) (execOk : Bool) (st : OSState) :
    Outcome ((Nat → Program) × OSState × List Action) :=
  if forkRes < 0 then .died "fork() failed." st
  else
    let p := progs cur
    let trace := child_trace progs num_programs cur execOk
    match (if 0 < cur ∧ 0 ≤ p.fd_in then closeFd st p.fd_in else .ok st) with
    | .died m s => .died m s
    | .ok st1 =>
      match (if cur ≠ num_programs - 1 ∧ 0 ≤ p.fd_out then closeFd st1 p.fd_out
             else .ok st1) with
      | .died m s => .died m s
      | .ok st2 => .ok (clearFds (setPid progs cur forkRes) cur, st2, trace)

/-- `WEXITSTATUS(status)`: bits 8-15 of the raw wait status. -/
def wexitstatus (status : Nat) : Nat :=
  status / 256 % 256

/-- The raw wait status of a process that exited normally via
`exit(code)`: the low 8 bits of the code, shifted into bits 8-15. -/
def mkExitStatus (code : Nat) : Nat :=
  code % 256 * 256

/-- The raw wait status of a process terminated by signal `sig`: the
signal number in the low 7 bits, plus the core-dump flag in bit 7. -/
def mkSignalStatus (sig : Nat) (core : Bool) : Nat :=
  sig % 128 + (if core then 128 else 0)

/-- `wait_on_program`: returns `-1` when the stage has no recorded pid
(`prog->pid < 0`), `-1` when `waitpid` does not return that pid
(`waitRv` is what `waitpid` returns; `waitStatus` is the raw status it
stores), and otherwise `WEXITSTATUS` of the raw status. -/
def wait_on_program (prog : Program) (waitRv : Int) (waitStatus : Nat) : Int :=
  if prog.pid < 0 then -1
  else if waitRv ≠ prog.pid then -1
  else (wexitstatus waitStatus : Int)

/-- A line the orchestrator prints to stderr. -/
inductive Event where
  | starting (i : Nat) (name : String)
  | waiting (i : Nat) (name : String)
  | exited (i : Nat) (name : String) (status : Int)
  | parentDone
deriving Repr, DecidableEq

/-- Is this event a per-stage exit report? -/
def Event.isExited : Event → Bool
  | .exited _ _ _ => true
  | _ => false

/-- The launch loop of `main`: for `i = cur .. num_programs-1`, print
`"Starting program i:name"` and call `start_program`.  Child action
traces are not part of the parent's observable state and are dropped
here. -/
def launch_loop (pids : Nat → Int) (execOks : Nat → Bool) (num_programs : Nat) :
    Nat → (Nat → Program) → OSState → List Event × Outcome ((Nat → Program) × OSState)
  | cur, progs, st =>
    if _h : cur < num_programs then
      let ev := Event.starting cur (progs cur).argv.headI
      match start_program progs num_programs cur (pids cur) (execOks cur) st with
      | .died m s => ([ev], .died m s)
      | .ok (progs', st', _) =>
        let (evs, out) := launch_loop pids execOks num_programs (cur + 1) progs' st'
        (ev :: evs, out)
    else ([], .ok (progs, st))
termination_by cur => num_programs - cur

/-- The wait loop of `main`: for `i = cur .. num_programs-1`, print
`"Waiting for program i:name"`, wait, and print
`"Program i:name exited with status"`. -/
def wait_loop (progs : Nat → Program) (waitRv : Nat → Int) (waitStatus : Nat → Nat)
    (num_programs : Nat) : Nat → List Event
  | cur =>
    if h : cur < num_programs then
      Event.waiting cur (progs cur).argv.headI ::
      Event.exited cur (progs cur).argv.headI
        (wait_on_program (progs cur) (waitRv cur) (waitStatus cur)) ::
      wait_loop progs waitRv waitStatus num_programs (cur + 1)
    else []
termination_by cur => num_programs - cur

/-- `free_programs`: releases each stage's argument array. -/
def free_programs (progs : Nat → Program) (num_programs : Nat) : Nat → Program :=
  fun j => if j < num_programs then { progs j with argv := [] } else progs j

/-- The stage array as `parse_command_line` leaves it in `main`
(entries past the parsed count are never read; they are modelled as
freshly initialised empty stages). -/
def progsOf (G : List (List String)) : Nat → Program :=
  fun j => init_program (G.getD j [])

/-- What running `main` produces: the progress events printed to stderr,
the `die` diagnostic if the process died, and the process exit code. -/
structure RunResult where
  events : List Event
  diag : Option String
  exitCode : Int
deriving Repr, DecidableEq

/-- `main`, with `tokens` the arguments after `argv[0]` and all OS
behaviour supplied by oracles: reject an empty command line; parse; build
the pipes; launch stages `0 .. N-1` in order; wait on stages `0 .. N-1`
in order; free the argument arrays; print the final message and return
`0`. -/
def run_main (tokens : List String) (failAt : Option Nat) (pids : Nat → Int)
    (execOks : Nat → Bool) (waitRv : Nat → Int) (waitStatus : Nat → Nat) : RunResult :=
  if tokens = [] then
    { events := [], diag := some
        "Specify at least one program to run. Multiple programs are separated by --",
      exitCode := EXIT_FAILURE }
  else
    match parse_command_line MAX_NUM_PROGRAMS tokens with
    | .error e => { events := [], diag := some (parseErrMsg e), exitCode := EXIT_FAILURE }
    | .ok G =>
      let N := G.length
      match prepare_pipes failAt N (progsOf G) initialOS with
      | .died m _ => { events := [], diag := some m, exitCode := EXIT_FAILURE }
      | .ok (progs1, st1) =>
        match launch_loop pids execOks N 0 progs1 st1 with
        | (evs, .died m _) => { events := evs, diag := some m, exitCode := EXIT_FAILURE }
        | (evs, .ok (progs2, _)) =>
          let wevs := wait_loop progs2 waitRv waitStatus N 0
          let _ := free_programs progs2 N
          { events := evs ++ wevs ++ [Event.parentDone], diag := none, exitCode := 0 }

theorem splitGroups_ne_nil (l : List String) : splitGroups l ≠ [] := by
  cases l with
  | nil => simp [splitGroups]
  | cons t ts =>
    simp only [splitGroups]
    split
    · simp
    · split <;> simp

theorem splitGroups_cons_delim (ts : List String) :
    splitGroups (DELIM :: ts) = [] :: splitGroups ts := by
  simp [splitGroups]

theorem splitGroups_cons_ne {t : String} (ts : List String) (h : t ≠ DELIM) :
    splitGroups (t :: ts) = (t :: (splitGroups ts).headI) :: (splitGroups ts).tail := by
  simp only [splitGroups, if_neg h]
  rcases hS : splitGroups ts with _ | ⟨g, gs⟩
  · exact absurd hS (splitGroups_ne_nil ts)
  · simp

theorem cons_headI_tail {α : Type} [Inhabited α] {l : List α} (h : l ≠ []) :
    l.headI :: l.tail = l := by
  cases l with
  | nil => exact absurd rfl h
  | cons a l => simp

theorem adjGroups_nil (g : List String) : adjGroups g [] = [g.reverse] := by
  simp [adjGroups, splitGroups]

theorem adjGroups_delim (g ts : List String) :
    adjGroups g (DELIM :: ts) = g.reverse :: splitGroups ts := by
  rw [adjGroups, splitGroups_cons_delim]
  simp [cons_headI_tail (splitGroups_ne_nil ts)]

theorem adjGroups_ne {t : String} (g ts : List String) (h : t ≠ DELIM) :
    adjGroups g (t :: ts) = adjGroups (t :: g) ts := by
  rw [adjGroups, adjGroups, splitGroups_cons_ne ts h]
  simp

theorem adjGroups_nil_left (toks : List String) :
    adjGroups [] toks = splitGroups toks := by
  rw [adjGroups]
  simp [cons_headI_tail (splitGroups_ne_nil toks)]

theorem adjGroups_ne_nil (g toks : List String) : adjGroups g toks ≠ [] := by
  simp [adjGroups]

theorem splitGroups_eq_single {ts : List String} (h : splitGroups ts = [[]]) :
    ts = [] := by
  cases ts with
  | nil => rfl
  | cons t ts' =>
    by_cases ht : t = DELIM
    · subst ht
      rw [splitGroups_cons_delim] at h
      exact absurd (List.tail_eq_of_cons_eq h) (splitGroups_ne_nil ts')
    · rw [splitGroups_cons_ne ts' ht] at h
      simp at h

/-- Successful parse: when every pending group is nonempty and the total
stage count stays within the bound, `parse_aux` returns the groups. -/
theorem parse_aux_ok (maxN : Nat) :
    ∀ (toks : List String) (count : Nat) (g : List String),
    (∀ x ∈ adjGroups g toks, x ≠ []) →
    count + (adjGroups g toks).length ≤ maxN →
    parse_aux maxN count g toks = .ok (adjGroups g toks) := by
  intro toks
  induction toks with
  | nil =>
    intro count g hne _
    rw [adjGroups_nil] at *
    have hg : g ≠ [] := by
      intro hg
      exact hne [] (by simp [hg]) rfl
    simp [parse_aux, hg]
  | cons t ts ih =>
    intro count g hne hlen
    by_cases ht : t = DELIM
    · subst ht
      rw [adjGroups_delim] at hne hlen ⊢
      have hg : g ≠ [] := by
        intro hg
        exact hne [] (by simp [hg]) rfl
      have hts : ts ≠ [] := by
        intro hts
        subst hts
        exact hne [] (by simp [splitGroups]) rfl
      have hSlen : 1 ≤ (splitGroups ts).length :=
        List.length_pos.mpr (splitGroups_ne_nil ts)
      have hcnt : ¬(count + 1 = maxN) := by
        simp only [List.length_cons] at hlen
        omega
      rw [parse_aux, if_pos rfl, if_neg hg, if_neg hts, if_neg hcnt]
      have := ih (count + 1) []
      rw [adjGroups_nil_left] at this
      rw [this (fun x hx => hne x (List.mem_cons_of_mem _ hx))
        (by simp only [List.length_cons] at hlen; omega)]
      rfl
    · rw [adjGroups_ne g ts ht] at hne hlen ⊢
      rw [parse_aux, if_neg ht]
      exact ih count (t :: g) hne hlen

/-- "Empty program.": an empty group strictly before the final position,
reached before the stage bound trips, is reported as an empty program. -/
theorem parse_aux_empty (maxN : Nat) :
    ∀ (toks : List String) (count : Nat) (g : List String) (e : Nat),
    e + 1 < (adjGroups g toks).length →
    (adjGroups g toks).getD e [] = [] →
    (∀ j < e, (adjGroups g toks).getD j [] ≠ []) →
    count + e < maxN →
    parse_aux maxN count g toks = .error .emptyProgram := by
  intro toks
  induction toks with
  | nil =>
    intro count g e hlt _ _ _
    rw [adjGroups_nil] at hlt
    simp at hlt
  | cons t ts ih =>
    intro count g e hlt hgete hbefore hcnt
    by_cases ht : t = DELIM
    · subst ht
      rw [adjGroups_delim] at hlt hgete hbefore
      rcases Nat.eq_zero_or_pos e with he | he
      · subst he
        have hg : g = [] := by
          simpa using hgete
        simp [parse_aux, hg]
      · have hg : g ≠ [] := by
          have := hbefore 0 he
          simpa [List.reverse_eq_nil_iff] using this
        have hts : ts ≠ [] := by
          intro hts
          subst hts
          simp [splitGroups] at hlt
          omega
        have hcnt1 : ¬(count + 1 = maxN) := by omega
        rw [parse_aux, if_pos rfl, if_neg hg, if_neg hts, if_neg hcnt1]
        have hrec := ih (count + 1) [] (e - 1)
        rw [adjGroups_nil_left] at hrec
        rw [hrec ?_ ?_ ?_ (by omega)]
        · rfl
        · simp only [List.length_cons] at hlt
          omega
        · have : e = (e - 1) + 1 := by omega
          rw [this] at hgete
          simpa using hgete
        · intro j hj
          have := hbefore (j + 1) (by omega)
          simpa using this
    · rw [adjGroups_ne g ts ht] at hlt hgete hbefore
      rw [parse_aux, if_neg ht]
      exact ih count (t :: g) e hlt hgete hbefore hcnt

/-- "Last program is empty.": a trailing delimiter — an empty final group
with every earlier group nonempty — within the bound plus one. -/
theorem parse_aux_last (maxN : Nat) :
    ∀ (toks : List String) (count : Nat) (g : List String),
    2 ≤ (adjGroups g toks).length →
    (adjGroups g toks).getD ((adjGroups g toks).length - 1) [] = [] →
    (∀ j < (adjGroups g toks).length - 1, (adjGroups g toks).getD j [] ≠ []) →
    count + (adjGroups g toks).length ≤ maxN + 1 →
    parse_aux maxN count g toks = .error .lastEmpty := by
  intro toks
  induction toks with
  | nil =>
    intro count g h2 _ _ _
    rw [adjGroups_nil] at h2
    simp at h2
  | cons t ts ih =>
    intro count g h2 hlast hbefore hcnt
    by_cases ht : t = DELIM
    · subst ht
      rw [adjGroups_delim] at h2 hlast hbefore hcnt
      simp only [List.length_cons] at h2 hlast hbefore hcnt
      have hg : g ≠ [] := by
        have := hbefore 0 (by omega)
        simpa [List.reverse_eq_nil_iff] using this
      by_cases hts : ts = []
      · subst hts
        simp [parse_aux, hg]
      · have hSlen : 2 ≤ (splitGroups ts).length := by
          rcases hS : splitGroups ts with _ | ⟨x, xs⟩
          · exact absurd hS (splitGroups_ne_nil ts)
          · rcases xs with _ | _
            · exfalso
              have hx : x = [] := by
                have := hlast
                rw [hS] at this
                simpa using this
              exact hts (splitGroups_eq_single (by rw [hS, hx]))
            · simp
        have hcnt1 : ¬(count + 1 = maxN) := by omega
        rw [parse_aux, if_pos rfl, if_neg hg, if_neg hts, if_neg hcnt1]
        have hrec := ih (count + 1) []
        rw [adjGroups_nil_left] at hrec
        rw [hrec hSlen ?_ ?_ (by omega)]
        · rfl
        · have : (splitGroups ts).length - 1 + 1 = (splitGroups ts).length := by omega
          calc (splitGroups ts).getD ((splitGroups ts).length - 1) []
              = (g.reverse :: splitGroups ts).getD ((splitGroups ts).length - 1 + 1) [] := by
                simp
            _ = [] := by rw [this]; simpa using hlast
        · intro j hj
          have := hbefore (j + 1) (by omega)
          simpa using this
    · rw [adjGroups_ne g ts ht] at h2 hlast hbefore hcnt
      rw [parse_aux, if_neg ht]
      exact ih count (t :: g) h2 hlast hbefore hcnt

/-- "Too many programs.": the bound trips as soon as a group beyond the
`maxN`-th begins; the groups that complete before that are nonempty, and
either strictly more than `maxN + 1` groups arise or exactly `maxN + 1`
with content after the last delimiter. -/
theorem parse_aux_toomany (maxN : Nat) :
    ∀ (toks : List String) (count : Nat) (g : List String),
    count < maxN →
    (∀ j, j < maxN - count → j < (adjGroups g toks).length →
      (adjGroups g toks).getD j [] ≠ []) →
    (maxN + 1 < count + (adjGroups g toks).length ∨
      (count + (adjGroups g toks).length = maxN + 1 ∧
        (adjGroups g toks).getD ((adjGroups g toks).length - 1) [] ≠ [])) →
    parse_aux maxN count g toks = .error .tooMany := by
  intro toks
  induction toks with
  | nil =>
    intro count g hcm _ hcrit
    rw [adjGroups_nil] at hcrit
    simp only [List.length_singleton] at hcrit
    omega
  | cons t ts ih =>
    intro count g hcm hpre hcrit
    by_cases ht : t = DELIM
    · subst ht
      rw [adjGroups_delim] at hpre hcrit
      simp only [List.length_cons] at hpre hcrit
      have hg : g ≠ [] := by
        have := hpre 0 (by omega) (by omega)
        simpa [List.reverse_eq_nil_iff] using this
      have hts : ts ≠ [] := by
        intro hts
        subst hts
        simp only [splitGroups] at hcrit
        simp at hcrit
        omega
      by_cases hcnt1 : count + 1 = maxN
      · rw [parse_aux, if_pos rfl, if_neg hg, if_neg hts, if_pos hcnt1]
      · rw [parse_aux, if_pos rfl, if_neg hg, if_neg hts, if_neg hcnt1]
        have hSlen : 1 ≤ (splitGroups ts).length :=
          List.length_pos.mpr (splitGroups_ne_nil ts)
        have hrec := ih (count + 1) []
        rw [adjGroups_nil_left] at hrec
        rw [hrec (by omega) ?_ ?_]
        · rfl
        · intro j hj hjl
          have := hpre (j + 1) (by omega) (by omega)
          simpa using this
        · rcases hcrit with hlt | ⟨heq, hne⟩
          · left; omega
          · right
            refine ⟨by omega, ?_⟩
            have : (splitGroups ts).length - 1 + 1 = (splitGroups ts).length := by
              omega
            intro hcontra
            apply hne
            calc (g.reverse :: splitGroups ts).getD ((splitGroups ts).length + 1 - 1) []
                = (g.reverse :: splitGroups ts).getD ((splitGroups ts).length - 1 + 1) [] := by
                  congr 1
                  omega
              _ = (splitGroups ts).getD ((splitGroups ts).length - 1) [] := by simp
              _ = [] := hcontra
    · rw [adjGroups_ne g ts ht] at hpre hcrit
      rw [parse_aux, if_neg ht]
      exact ih count (t :: g) hcm hpre hcrit

theorem firstEmptyIdx_le (G : List (List String)) : firstEmptyIdx G ≤ G.length := by
  induction G with
  | nil => simp [firstEmptyIdx]
  | cons g gs ih =>
    simp only [firstEmptyIdx, List.length_cons]
    split
    · omega
    · omega

theorem firstEmptyIdx_eq_length_iff (G : List (List String)) :
    firstEmptyIdx G = G.length ↔ ∀ g ∈ G, g ≠ [] := by
  induction G with
  | nil => simp [firstEmptyIdx]
  | cons g gs ih =>
    simp only [firstEmptyIdx, List.length_cons]
    split
    · rename_i hg
      subst hg
      constructor
      · intro h0
        simp at h0
      · intro hall
        exact absurd rfl (hall [] (List.mem_cons_self _ _))
    · rename_i hg
      simp only [Nat.add_right_cancel_iff, ih, List.mem_cons]
      constructor
      · rintro h x (rfl | hx)
        · exact hg
        · exact h x hx
      · intro h x hx
        exact h x (Or.inr hx)

theorem firstEmptyIdx_getD (G : List (List String))
    (h : firstEmptyIdx G < G.length) : G.getD (firstEmptyIdx G) [] = [] := by
  induction G with
  | nil => simp [firstEmptyIdx] at h
  | cons g gs ih =>
    by_cases hg : g = []
    · simp [firstEmptyIdx, hg]
    · simp only [firstEmptyIdx, if_neg hg, List.length_cons] at h ⊢
      simpa using ih (by omega)

theorem firstEmptyIdx_before (G : List (List String)) :
    ∀ j < firstEmptyIdx G, G.getD j [] ≠ [] := by
  induction G with
  | nil => simp [firstEmptyIdx]
  | cons g gs ih =>
    intro j hj
    simp only [firstEmptyIdx] at hj
    split at hj
    · omega
    · rename_i hg
      cases j with
      | zero => simpa using hg
      | succ j' => simpa using ih j' (by omega)

/-- The head group of a nonempty token list is only empty when the list
starts with the delimiter, in which case there are at least two groups. -/
theorem splitGroups_head_cases {toks : List String} (h : toks ≠ []) :
    2 ≤ (splitGroups toks).length ∨ (splitGroups toks).headI ≠ [] := by
  cases toks with
  | nil => exact absurd rfl h
  | cons t ts =>
    by_cases ht : t = DELIM
    · subst ht
      rw [splitGroups_cons_delim]
      left
      have := List.length_pos.mpr (splitGroups_ne_nil ts)
      simp only [List.length_cons]
      omega
    · rw [splitGroups_cons_ne ts ht]
      right
      simp

/-- The central parser theorem: on a nonempty token list,
`parse_command_line` computes exactly `parseSpec` of the delimiter-split
groups. -/
theorem parse_eq_parseSpec (maxN : Nat) (toks : List String) (h : toks ≠ []) :
    parse_command_line maxN toks = parseSpec maxN (splitGroups toks) := by
  have hL : 1 ≤ (splitGroups toks).length :=
    List.length_pos.mpr (splitGroups_ne_nil toks)
  have hE_le := firstEmptyIdx_le (splitGroups toks)
  have hhead := splitGroups_head_cases h
  have hE1 : (splitGroups toks).length = 1 → 1 ≤ firstEmptyIdx (splitGroups toks) := by
    intro h1
    rcases hhead with h2 | hne
    · omega
    · rcases hG : splitGroups toks with _ | ⟨x, xs⟩
      · exact absurd hG (splitGroups_ne_nil toks)
      · rw [hG] at hne
        simp only [List.headI] at hne
        simp only [firstEmptyIdx, if_neg hne]
        omega
  have hE1' : 1 ≤ (splitGroups toks).length := hL
  have hpcl : parse_command_line maxN toks =
      if maxN = 0 then .error .tooMany else parse_aux maxN 0 [] toks := by
    cases toks with
    | nil => exact absurd rfl h
    | cons t ts => rfl
  by_cases hm0 : maxN = 0
  · subst hm0
    rw [hpcl, if_pos rfl, parseSpec]
    rw [if_neg (by omega), if_neg (by omega), if_neg (by
      intro hc
      have := hE1 (by omega)
      omega)]
  · rw [hpcl, if_neg hm0]
    by_cases c1 : firstEmptyIdx (splitGroups toks) = (splitGroups toks).length ∧
        (splitGroups toks).length ≤ maxN
    · rw [parseSpec, if_pos c1]
      have := parse_aux_ok maxN toks 0 []
      rw [adjGroups_nil_left] at this
      exact this ((firstEmptyIdx_eq_length_iff (splitGroups toks)).mp c1.1) (by omega)
    · rw [parseSpec, if_neg c1]
      by_cases c2 : firstEmptyIdx (splitGroups toks) + 1 < (splitGroups toks).length ∧
          firstEmptyIdx (splitGroups toks) < maxN
      · rw [if_pos c2]
        have := parse_aux_empty maxN toks 0 [] (firstEmptyIdx (splitGroups toks))
        rw [adjGroups_nil_left] at this
        exact this (by omega) (firstEmptyIdx_getD (splitGroups toks) (by omega))
          (firstEmptyIdx_before (splitGroups toks)) (by omega)
      · rw [if_neg c2]
        by_cases c3 : firstEmptyIdx (splitGroups toks) + 1 = (splitGroups toks).length ∧
            (splitGroups toks).length ≤ maxN + 1
        · rw [if_pos c3]
          have hL2 : 2 ≤ (splitGroups toks).length := by
            rcases Nat.lt_or_ge 1 (splitGroups toks).length with h2 | h2
            · omega
            · exfalso
              have := hE1 (by omega)
              omega
          have := parse_aux_last maxN toks 0 []
          rw [adjGroups_nil_left] at this
          refine this hL2 ?_ ?_ (by omega)
          · have heq : (splitGroups toks).length - 1 = firstEmptyIdx (splitGroups toks) := by
              omega
            rw [heq]
            exact firstEmptyIdx_getD (splitGroups toks) (by omega)
          · intro j hj
            exact firstEmptyIdx_before (splitGroups toks) j (by omega)
        · rw [if_neg c3]
          have := parse_aux_toomany maxN toks 0 []
          rw [adjGroups_nil_left] at this
          refine this (by omega) ?_ ?_
          · intro j hj hjL
            refine firstEmptyIdx_before (splitGroups toks) j ?_
            omega
          · rcases Nat.lt_or_ge maxN ((splitGroups toks).length - 1) with hbig | hsmall
            · left; omega
            · right
              refine ⟨by omega, ?_⟩
              have hE_gt : (splitGroups toks).length - 1 < firstEmptyIdx (splitGroups toks) := by
                omega
              exact firstEmptyIdx_before (splitGroups toks) ((splitGroups toks).length - 1) hE_gt

/-- The `n` consecutive descriptors `s, s + 1, ..., s + n - 1`. -/
def fdList (s : Int) : Nat → List Int
  | 0 => []
  | n + 1 => s :: fdList (s + 1) n

/-- Closed form of the stage array after pipe calls `c, c+1, ...` have run
`r` times starting from kernel descriptor `base`: stage `k` gets write end
`base + 2*(k-c) + 1` when `c ≤ k < c+r` and read end `base + 2*(k-c) - 2`
when `c < k ≤ c+r`. -/
def pipedAt (progs : Nat → Program) (base : Int) (c r : Nat) : Nat → Program :=
  fun k =>
    { progs k with
      fd_out := if c ≤ k ∧ k < c + r then base + 2 * ((k : Int) - (c : Int)) + 1
                else (progs k).fd_out,
      fd_in := if c < k ∧ k ≤ c + r then base + 2 * ((k : Int) - (c : Int)) - 2
               else (progs k).fd_in }

theorem Program.ext5 {p q : Program} (h1 : p.argv = q.argv) (h2 : p.argc = q.argc)
    (h3 : p.pid = q.pid) (h4 : p.fd_in = q.fd_in) (h5 : p.fd_out = q.fd_out) : p = q := by
  cases p
  cases q
  simp_all

theorem fdList_zero (s : Int) : fdList s 0 = [] := rfl

theorem fdList_succ (s : Int) (n : Nat) :
    fdList s (n + 1) = s :: fdList (s + 1) n := rfl

theorem fdList_two_step (base : Int) (r : Nat) :
    fdList base (2 * (r + 1)) = base :: (base + 1) :: fdList (base + 2) (2 * r) := by
  have h1 : 2 * (r + 1) = 2 * r + 1 + 1 := by ring
  have h2 : base + 1 + 1 = base + 2 := by ring
  rw [h1, fdList_succ, fdList_succ, h2]

/-- Closed form of a successful run of the `prepare_pipes` loop. -/
theorem prepare_go_ok :
    ∀ (r c : Nat) (progs : Nat → Program) (st : OSState),
    prepare_pipes_go none c r progs st =
      .ok (pipedAt progs st.nextFd c r,
        { nextFd := st.nextFd + 2 * r, openFds := st.openFds ++ fdList st.nextFd (2 * r) }) := by
  intro r
  induction r with
  | zero =>
    intro c progs st
    rw [prepare_pipes_go]
    have hp : pipedAt progs st.nextFd c 0 = progs := by
      funext k
      simp only [pipedAt]
      have h1 : ¬(c ≤ k ∧ k < c + 0) := by omega
      have h2 : ¬(c < k ∧ k ≤ c + 0) := by omega
      rw [if_neg h1, if_neg h2]
    rw [hp, fdList_zero]
    simp
  | succ r ih =>
    intro c progs st
    rw [prepare_pipes_go]
    have hpc : pipeCall st c none = some (st.nextFd, st.nextFd + 1,
        { nextFd := st.nextFd + 2, openFds := st.openFds ++ [st.nextFd, st.nextFd + 1] }) := by
      simp [pipeCall]
    simp only [hpc]
    rw [ih]
    have hprogs : pipedAt (setFdIn (setFdOut progs c (st.nextFd + 1)) (c + 1) st.nextFd)
        (st.nextFd + 2) (c + 1) r = pipedAt progs st.nextFd c (r + 1) := by
      funext k
      apply Program.ext5 <;>
        (simp only [pipedAt, setFdIn, setFdOut]
         split_ifs <;> (try subst_vars) <;> (try dsimp only) <;> first | rfl | omega)
    rw [hprogs]
    have hfds : (st.openFds ++ [st.nextFd, st.nextFd + 1]) ++ fdList (st.nextFd + 2) (2 * r) =
        st.openFds ++ fdList st.nextFd (2 * (r + 1)) := by
      rw [fdList_two_step, List.append_assoc]
      rfl
    simp only [Outcome.ok.injEq, Prod.mk.injEq, OSState.mk.injEq]
    refine ⟨trivial, ?_, hfds⟩
    push_cast
    ring

/-- Closed form of a failing run of the `prepare_pipes` loop: when pipe
call `c + j` (with `j < r` calls remaining to reach it) fails, the process
dies with the `2*j` descriptors of the pipes already created still open. -/
theorem prepare_go_died :
    ∀ (j r c : Nat) (progs : Nat → Program) (st : OSState), j < r →
    prepare_pipes_go (some (c + j)) c r progs st =
      .died "pipe() failed."
        { nextFd := st.nextFd + 2 * j, openFds := st.openFds ++ fdList st.nextFd (2 * j) } := by
  intro j
  induction j with
  | zero =>
    intro r c progs st hr
    cases r with
    | zero => omega
    | succ r =>
      rw [prepare_pipes_go]
      have hpc : pipeCall st c (some (c + 0)) = none := by
        simp [pipeCall]
      simp only [hpc]
      simp [fdList_zero]
  | succ j ih =>
    intro r c progs st hr
    cases r with
    | zero => omega
    | succ r =>
      rw [prepare_pipes_go]
      have hpc : pipeCall st c (some (c + (j + 1))) = some (st.nextFd, st.nextFd + 1,
          { nextFd := st.nextFd + 2, openFds := st.openFds ++ [st.nextFd, st.nextFd + 1] }) := by
        have hnec : ¬(c + (j + 1) = c) := by omega
        simp [pipeCall, hnec]
      simp only [hpc]
      have harg : c + (j + 1) = (c + 1) + j := by omega
      rw [harg, ih r (c + 1) _ _ (by omega)]
      simp only [Outcome.died.injEq, OSState.mk.injEq]
      refine ⟨trivial, ?_, ?_⟩
      · push_cast
        ring
      · rw [fdList_two_step, List.append_assoc]
        rfl

/-- The pipe endpoints the parent still holds after launching stages
`0 .. i-1` of `N`: the read end of pipe `i-1` (the previous stage's pipe,
closed when stage `i` is launched) and both ends of pipes `i .. N-2`. -/
def pipeOpen (base : Int) (N i : Nat) : List Int :=
  (if 1 ≤ i ∧ i ≤ N - 1 then [base + 2 * (i : Int) - 2] else []) ++
  fdList (base + 2 * (i : Int)) (2 * (N - 1) - 2 * i)

/-- The stage array after `prepare_pipes` assigned endpoints from `base`
and stages `0 .. i-1` of `N` have been launched: launched stages carry
their recorded pid and released endpoint fields, the rest still hold
their assigned pipe endpoints. -/
def launchedProgs (G : List (List String)) (base : Int) (pids : Nat → Int)
    (N i : Nat) : Nat → Program :=
  fun j =>
    if j < i then
      { argv := G.getD j [], argc := (G.getD j []).length, pid := pids j,
        fd_in := -1, fd_out := -1 }
    else pipedAt (progsOf G) base 0 (N - 1) j

theorem pipeOpen_zero (base : Int) (N : Nat) :
    pipeOpen base N 0 = fdList base (2 * (N - 1)) := by
  rw [pipeOpen, if_neg (by omega)]
  norm_num

theorem pipeOpen_end (base : Int) (N : Nat) : pipeOpen base N N = [] := by
  rw [pipeOpen, if_neg (by omega)]
  have h : 2 * (N - 1) - 2 * N = 0 := by omega
  rw [h, fdList_zero]
  rfl

/-- Evaluation rule for a successful `start_program` in terms of the two
parent-side close steps. -/
theorem start_program_ok (progs : Nat → Program) (N cur : Nat) (forkRes : Int)
    (execOk : Bool) (st st1 st2 : OSState)
    (hfork : ¬(forkRes < 0))
    (h1 : (if 0 < cur ∧ 0 ≤ (progs cur).fd_in then closeFd st (progs cur).fd_in
           else .ok st) = .ok st1)
    (h2 : (if cur ≠ N - 1 ∧ 0 ≤ (progs cur).fd_out then closeFd st1 (progs cur).fd_out
           else .ok st1) = .ok st2) :
    start_program progs N cur forkRes execOk st =
      .ok (clearFds (setPid progs cur forkRes) cur, st2,
        child_trace progs N cur execOk) := by
  rw [start_program, if_neg hfork]
  simp only [h1, h2]

/-- Closed form of the launch loop from stage `i` on, starting from the
prepared state: every remaining stage forks successfully, the parent
closes exactly the endpoints it hands over, and at the end it holds no
pipe endpoint any more. -/
theorem launch_go (G : List (List String)) (base nf : Int) (pids : Nat → Int)
    (execOks : Nat → Bool) (open0 : List Int) (N : Nat)
    (hbase : 0 ≤ base) (hfresh : ∀ fd ∈ open0, fd < base)
    (hpids : ∀ j, 0 ≤ pids j) :
    ∀ (n i : Nat), i + n = N →
    launch_loop pids execOks N i (launchedProgs G base pids N i)
        ⟨nf, open0 ++ pipeOpen base N i⟩ =
      ((List.range' i n).map fun j => Event.starting j (G.getD j []).headI,
        .ok (launchedProgs G base pids N N, ⟨nf, open0 ++ pipeOpen base N N⟩)) := by
  intro n
  induction n with
  | zero =>
    intro i hi
    have hiN : i = N := by omega
    subst hiN
    rw [launch_loop, dif_neg (by omega)]
    simp [List.range']
  | succ n ih =>
    intro i hi
    have hiN : i < N := by omega
    have hN1 : 1 ≤ N := by omega
    have hfd_in : (launchedProgs G base pids N i i).fd_in =
        if 0 < i then base + 2 * (i : Int) - 2 else -1 := by
      simp only [launchedProgs, pipedAt, progsOf, init_program]
      split_ifs <;> first | rfl | omega
    have hfd_out : (launchedProgs G base pids N i i).fd_out =
        if i < N - 1 then base + 2 * (i : Int) + 1 else -1 := by
      simp only [launchedProgs, pipedAt, progsOf, init_program]
      split_ifs <;> first | rfl | omega
    have hargv : (launchedProgs G base pids N i i).argv = G.getD i [] := by
      simp only [launchedProgs, pipedAt, progsOf, init_program]
      split_ifs <;> rfl
    have hclose1 : (if 0 < i ∧ 0 ≤ (launchedProgs G base pids N i i).fd_in
        then closeFd ⟨nf, open0 ++ pipeOpen base N i⟩
          (launchedProgs G base pids N i i).fd_in
        else .ok ⟨nf, open0 ++ pipeOpen base N i⟩) =
        .ok ⟨nf, open0 ++ fdList (base + 2 * (i : Int)) (2 * (N - 1) - 2 * i)⟩ := by
      by_cases h0 : 0 < i
      · have hv : (launchedProgs G base pids N i i).fd_in = base + 2 * (i : Int) - 2 := by
          rw [hfd_in, if_pos h0]
        rw [if_pos ⟨h0, by rw [hv]; omega⟩, hv]
        have hPO : pipeOpen base N i =
            (base + 2 * (i : Int) - 2) ::
              fdList (base + 2 * (i : Int)) (2 * (N - 1) - 2 * i) := by
          rw [pipeOpen, if_pos (by omega : 1 ≤ i ∧ i ≤ N - 1), List.singleton_append]
        rw [hPO, closeFd]
        rw [if_pos (by simp)]
        have hnotmem : (base + 2 * (i : Int) - 2) ∉ open0 := by
          intro hm
          have := hfresh _ hm
          omega
        rw [List.erase_append_right _ hnotmem, List.erase_cons_head]
      · rw [if_neg (by omega)]
        have h0' : i = 0 := by omega
        subst h0'
        rw [pipeOpen_zero]
        norm_num
    have hclose2 : (if i ≠ N - 1 ∧ 0 ≤ (launchedProgs G base pids N i i).fd_out
        then closeFd ⟨nf, open0 ++ fdList (base + 2 * (i : Int)) (2 * (N - 1) - 2 * i)⟩
          (launchedProgs G base pids N i i).fd_out
        else .ok ⟨nf, open0 ++ fdList (base + 2 * (i : Int)) (2 * (N - 1) - 2 * i)⟩) =
        .ok ⟨nf, open0 ++ pipeOpen base N (i + 1)⟩ := by
      by_cases h0 : i < N - 1
      · have hv : (launchedProgs G base pids N i i).fd_out = base + 2 * (i : Int) + 1 := by
          rw [hfd_out, if_pos h0]
        rw [if_pos ⟨by omega, by rw [hv]; omega⟩, hv]
        have hm2 : 2 * (N - 1) - 2 * i = (2 * (N - 1) - 2 * (i + 1)) + 1 + 1 := by omega
        rw [hm2, fdList_succ, fdList_succ, closeFd]
        rw [if_pos (by simp)]
        have hnotmem : (base + 2 * (i : Int) + 1) ∉ open0 := by
          intro hm
          have := hfresh _ hm
          omega
        rw [List.erase_append_right _ hnotmem]
        rw [List.erase_cons_tail (by simp only [beq_iff_eq]; omega), List.erase_cons_head]
        have hPO : pipeOpen base N (i + 1) =
            (base + 2 * (i : Int)) ::
              fdList (base + 2 * (i : Int) + 1 + 1) (2 * (N - 1) - 2 * (i + 1)) := by
          rw [pipeOpen, if_pos (by omega : 1 ≤ i + 1 ∧ i + 1 ≤ N - 1),
            List.singleton_append]
          congr 1
          · push_cast
            ring
          · congr 1
            push_cast
            ring
        rw [hPO]
      · rw [if_neg (by
          intro hcon
          rcases hcon with ⟨hne, hge⟩
          rw [hfd_out, if_neg h0] at hge
          omega)]
        have hlen : 2 * (N - 1) - 2 * i = 0 := by omega
        rw [hlen, fdList_zero]
        have hPO : pipeOpen base N (i + 1) = [] := by
          rw [pipeOpen, if_neg (by omega)]
          have hl2 : 2 * (N - 1) - 2 * (i + 1) = 0 := by omega
          rw [hl2, fdList_zero]
          rfl
        rw [hPO]
    have hprogs2 : clearFds (setPid (launchedProgs G base pids N i) i (pids i)) i =
        launchedProgs G base pids N (i + 1) := by
      funext k
      apply Program.ext5 <;>
        (simp only [clearFds, setPid, launchedProgs, pipedAt, progsOf, init_program]
         split_ifs <;> (try subst_vars) <;> (try dsimp only) <;>
           first | rfl | omega)
    rw [launch_loop, dif_pos hiN]
    rw [start_program_ok _ _ _ _ _ _ _ _ (by have := hpids i; omega) hclose1 hclose2]
    rw [hprogs2]
    have hrange : List.range' i (n + 1) = i :: List.range' (i + 1) n := rfl
    rw [hrange]
    simp only [List.map_cons]
    rw [ih (i + 1) (by omega)]
    rw [hargv]

/-- The executable name `main` prints for stage `j`. -/
def stageName (G : List (List String)) (j : Nat) : String :=
  (G.getD j []).headI

/-- The status `wait_on_program` computes, as a function of the recorded
pid and the `waitpid` oracle values. -/
def waitResult (pid rv : Int) (status : Nat) : Int :=
  if pid < 0 then -1 else if rv ≠ pid then -1 else (wexitstatus status : Int)

theorem wait_on_program_eq (prog : Program) (rv : Int) (status : Nat) :
    wait_on_program prog rv status = waitResult prog.pid rv status := rfl

theorem flatMap_congr_mem {α β : Type} {l : List α} {f g : α → List β}
    (h : ∀ x ∈ l, f x = g x) : l.flatMap f = l.flatMap g := by
  induction l with
  | nil => rfl
  | cons a l ih =>
    simp only [List.flatMap_cons]
    rw [h a (List.mem_cons_self a l), ih fun x hx => h x (List.mem_cons_of_mem a hx)]

/-- Closed form of the wait loop: for each remaining stage, in index
order, a waiting line followed by an exit report. -/
theorem wait_go (progs : Nat → Program) (waitRv : Nat → Int) (waitStatus : Nat → Nat)
    (N : Nat) :
    ∀ (n i : Nat), i + n = N →
    wait_loop progs waitRv waitStatus N i =
      (List.range' i n).flatMap fun j =>
        [Event.waiting j (progs j).argv.headI,
         Event.exited j (progs j).argv.headI
           (wait_on_program (progs j) (waitRv j) (waitStatus j))] := by
  intro n
  induction n with
  | zero =>
    intro i hi
    rw [wait_loop, dif_neg (by omega)]
    rfl
  | succ n ih =>
    intro i hi
    rw [wait_loop, dif_pos (by omega)]
    have hrange : List.range' i (n + 1) = i :: List.range' (i + 1) n := rfl
    rw [hrange, List.flatMap_cons, ih (i + 1) (by omega)]
    rfl

/-- Master run: when the command line parses, every pipe is created and
every fork succeeds, `main` prints the start lines for stages `0..N-1` in
order, then for each stage in order a waiting line and an exit report
(whatever the wait oracle answers), then the final message, and exits 0. -/
theorem run_main_ok (tokens : List String) (G : List (List String)) (pids : Nat → Int)
    (execOks : Nat → Bool) (waitRv : Nat → Int) (waitStatus : Nat → Nat)
    (hne : tokens ≠ []) (hparse : parse_command_line MAX_NUM_PROGRAMS tokens = .ok G)
    (hpids : ∀ j, 0 ≤ pids j) :
    run_main tokens none pids execOks waitRv waitStatus =
      ⟨((List.range' 0 G.length).map fun j => Event.starting j (stageName G j)) ++
        ((List.range' 0 G.length).flatMap fun j =>
          [Event.waiting j (stageName G j),
           Event.exited j (stageName G j)
             (waitResult (pids j) (waitRv j) (waitStatus j))]) ++
        [Event.parentDone], none, 0⟩ := by
  have hprep := prepare_go_ok (G.length - 1) 0 (progsOf G) initialOS
  have hlp0 : launchedProgs G 3 pids G.length 0 = pipedAt (progsOf G) 3 0 (G.length - 1) := by
    funext j
    rw [launchedProgs, if_neg (by omega)]
  have hlaunch := launch_go G 3 (3 + 2 * ((G.length - 1 : Nat) : Int)) pids execOks
    [0, 1, 2] G.length (by omega) (by intro fd hfd; fin_cases hfd <;> norm_num) hpids
    G.length 0 (by omega)
  rw [hlp0, pipeOpen_zero, pipeOpen_end] at hlaunch
  have hwait := wait_go (launchedProgs G 3 pids G.length G.length) waitRv waitStatus
    G.length G.length 0 (by omega)
  rw [run_main, if_neg hne]
  simp only [hparse]
  rw [prepare_pipes]
  have hinit : initialOS.nextFd = 3 := rfl
  have hinitfds : initialOS.openFds = [0, 1, 2] := rfl
  rw [hinit, hinitfds] at hprep
  simp only [hprep, hlaunch, hwait]
  have hnames : ∀ j ∈ List.range' 0 G.length,
      (launchedProgs G 3 pids G.length G.length j) =
        ⟨G.getD j [], (G.getD j []).length, pids j, -1, -1⟩ := by
    intro j hj
    have hjN : j < G.length := by
      have := List.mem_range'_1.mp hj
      omega
    rw [launchedProgs, if_pos hjN]
  have hB : ((List.range' 0 G.length).flatMap fun j =>
      [Event.waiting j (launchedProgs G 3 pids G.length G.length j).argv.headI,
       Event.exited j (launchedProgs G 3 pids G.length G.length j).argv.headI
         (wait_on_program (launchedProgs G 3 pids G.length G.length j)
           (waitRv j) (waitStatus j))]) =
      ((List.range' 0 G.length).flatMap fun j =>
        [Event.waiting j (stageName G j),
         Event.exited j (stageName G j)
           (waitResult (pids j) (waitRv j) (waitStatus j))]) := by
    refine flatMap_congr_mem ?_
    intro j hj
    rw [hnames j hj]
    rfl
  rw [hB]
  rfl

/-- The parent-observable part of a `start_program` outcome (the child's
action trace happens in the child process, not in the parent). -/
def parentView (o : Outcome ((Nat → Program) × OSState × List Action)) :
    Outcome ((Nat → Program) × OSState) :=
  match o with
  | .ok (p, st, _) => .ok (p, st)
  | .died m st => .died m st

theorem fdList_length (s : Int) (n : Nat) : (fdList s n).length = n := by
  induction n generalizing s with
  | zero => rfl
  | succ n ih =>
    rw [fdList_succ, List.length_cons, ih]

/-- Membership characterisation of the child's close list: exactly the
endpoint fields still holding a descriptor (`>= 0`) of the stages at
index `>= cur`. -/
theorem mem_closeList (progs : Nat → Program) (N cur : Nat) (hcur : cur ≤ N) (fd : Int) :
    Action.close fd ∈ (closeList progs N cur).map Action.close ↔
      0 ≤ fd ∧ ∃ i, cur ≤ i ∧ i < N ∧ ((progs i).fd_in = fd ∨ (progs i).fd_out = fd) := by
  constructor
  · intro hmem
    have hfd : fd ∈ closeList progs N cur := by
      rcases List.mem_map.mp hmem with ⟨x, hx, hinj⟩
      cases hinj
      exact hx
    rcases List.mem_flatMap.mp hfd with ⟨i, hirange, hi⟩
    have hiN : cur ≤ i ∧ i < N := by
      have := List.mem_range'_1.mp hirange
      omega
    rcases List.mem_append.mp hi with hm | hm
    · by_cases hc : 0 ≤ (progs i).fd_in
      · rw [if_pos hc] at hm
        simp only [List.mem_singleton] at hm
        subst hm
        exact ⟨hc, i, hiN.1, hiN.2, Or.inl rfl⟩
      · rw [if_neg hc] at hm
        simp at hm
    · by_cases hc : 0 ≤ (progs i).fd_out
      · rw [if_pos hc] at hm
        simp only [List.mem_singleton] at hm
        subst hm
        exact ⟨hc, i, hiN.1, hiN.2, Or.inr rfl⟩
      · rw [if_neg hc] at hm
        simp at hm
  · rintro ⟨hfd, i, hci, hiN, hor⟩
    refine List.mem_map.mpr ⟨fd, ?_, rfl⟩
    refine List.mem_flatMap.mpr ⟨i, List.mem_range'_1.mpr (by omega), ?_⟩
    refine List.mem_append.mpr ?_
    rcases hor with h | h
    · left
      rw [h, if_pos (h ▸ hfd)]
      exact List.mem_singleton.mpr rfl
    · right
      rw [h, if_pos (h ▸ hfd)]
      exact List.mem_singleton.mpr rfl

/-- A parent-side successful `start_program` releases both endpoint fields
of the launched stage and records the fork result as its pid. -/
theorem start_program_releases (progs : Nat → Program) (N cur : Nat) (forkRes : Int)
    (execOk : Bool) (st : OSState) (p : Nat → Program) (s : OSState) (tr : List Action)
    (h : start_program progs N cur forkRes execOk st = .ok (p, s, tr)) :
    (p cur).fd_in = -1 ∧ (p cur).fd_out = -1 ∧ (p cur).pid = forkRes := by
  rw [start_program] at h
  split_ifs at h
  dsimp only at h
  split at h
  · exact absurd h (by simp)
  · split at h
    · exact absurd h (by simp)
    · simp only [Outcome.ok.injEq, Prod.mk.injEq] at h
      rcases h with ⟨hp, _, _⟩
      subst hp
      simp [clearFds, setPid]

theorem filter_starting_events (nm : Nat → String) (l : List Nat) :
    ((l.map fun j => Event.starting j (nm j)).filter Event.isExited) = [] := by
  induction l with
  | nil => rfl
  | cons a l ih =>
    simp only [List.map_cons, List.filter_cons]
    rw [ih]
    rfl

theorem filter_wait_events (nm : Nat → String) (res : Nat → Int) (l : List Nat) :
    ((l.flatMap fun j => [Event.waiting j (nm j), Event.exited j (nm j) (res j)]).filter
        Event.isExited) = l.map fun j => Event.exited j (nm j) (res j) := by
  induction l with
  | nil => rfl
  | cons a l ih =>
    simp only [List.flatMap_cons, List.map_cons, List.filter_append, List.filter_cons]
    rw [ih]
    rfl

/-- A configuration error from the parser aborts `main` with the error's
diagnostic before anything else happens: the result does not depend on
the pipe, fork or wait oracles, and no stage event is emitted. -/
theorem run_main_config_error (tokens : List String) (e : ParseError)
    (hne : tokens ≠ [])
    (hparse : parse_command_line MAX_NUM_PROGRAMS tokens = .error e) :
    ∀ failAt pids execOks waitRv waitStatus,
    run_main tokens failAt pids execOks waitRv waitStatus =
      ⟨[], some (parseErrMsg e), EXIT_FAILURE⟩ := by
  intro failAt pids execOks waitRv waitStatus
  rw [run_main, if_neg hne]
  simp only [hparse]

/-- C1 (counterexample): a stage with a valid handle killed by signal 9
(SIGKILL) reports `0` from `wait_on_program`: exactly the same value as a
stage that exited normally with code 0.  The result for a signal-killed
stage is not a distinct abnormal-termination value but a spurious 0, so
the claim as stated is false of the code (`wait_on_program` applies
`WEXITSTATUS` without checking `WIFEXITED`). -/
theorem C1_counterexample :
    wait_on_program ⟨["sleep"], 1, 5, -1, -1⟩ 5 (mkSignalStatus 9 false) = 0 ∧
    wait_on_program ⟨["true"], 1, 5, -1, -1⟩ 5 (mkExitStatus 0) = 0 := by
  constructor <;> rfl

/-- C1 (amended): for a successfully launched stage whose wait succeeds,
`wait_on_program` returns `WEXITSTATUS` of the raw status: the exit code
`K` (0 ≤ K ≤ 255) for a stage that exited normally with code `K`, but `0`
for a stage terminated by any signal (with or without core dump) — the
code has no distinct abnormal-termination result. -/
theorem C1_exit_code_mapping (prog : Program) (rv : Int)
    (hpid : 0 ≤ prog.pid) (hrv : rv = prog.pid) :
    (∀ K : Nat, K ≤ 255 → wait_on_program prog rv (mkExitStatus K) = K) ∧
    (∀ (sig : Nat) (core : Bool),
      wait_on_program prog rv (mkSignalStatus sig core) = 0) := by
  constructor
  · intro K hK
    have hW : wexitstatus (mkExitStatus K) = K := by
      rw [wexitstatus, mkExitStatus]
      omega
    rw [wait_on_program, if_neg (by omega), if_neg (by omega), hW]
  · intro sig core
    have hW : wexitstatus (mkSignalStatus sig core) = 0 := by
      rw [wexitstatus, mkSignalStatus]
      rcases core with _ | _ <;> simp <;> omega
    rw [wait_on_program, if_neg (by omega), if_neg (by omega), hW]
    rfl

theorem C1_exit_code_mapping_witness :
    wait_on_program ⟨["x"], 1, 7, -1, -1⟩ 7 (mkExitStatus 42) = 42 ∧
    wait_on_program ⟨["x"], 1, 7, -1, -1⟩ 7 (mkSignalStatus 15 true) = 0 :=
  ⟨(C1_exit_code_mapping ⟨["x"], 1, 7, -1, -1⟩ 7 (by norm_num) rfl).1 42 (by norm_num),
   (C1_exit_code_mapping ⟨["x"], 1, 7, -1, -1⟩ 7 (by norm_num) rfl).2 15 true⟩

/-- C9 (counterexample): a stage that was never launched (`pid = -1`) and
a stage whose `waitpid` call errors (returns a value other than the
recorded pid) both make `wait_on_program` return the same `-1`: the two
failure kinds are not distinguishable from each other. -/
theorem C9_counterexample :
    wait_on_program ⟨["a"], 1, -1, -1, -1⟩ 3 (mkExitStatus 7) = -1 ∧
    wait_on_program ⟨["a"], 1, 5, -1, -1⟩ 3 (mkExitStatus 7) = -1 := by
  constructor <;> rfl

/-- C9 (amended): `wait_on_program` returns `-1` both when the stage was
never successfully launched (pid absent) and when the underlying wait
call errors; `-1` is distinct from every successful result (successes lie
in 0..255), but the two failure kinds collapse to the same value. -/
theorem C9_wait_failures (prog : Program) (rv : Int) (status : Nat) :
    (prog.pid < 0 → wait_on_program prog rv status = -1) ∧
    (0 ≤ prog.pid → rv ≠ prog.pid → wait_on_program prog rv status = -1) ∧
    (0 ≤ prog.pid → rv = prog.pid →
      0 ≤ wait_on_program prog rv status ∧ wait_on_program prog rv status ≤ 255) := by
  refine ⟨?_, ?_, ?_⟩
  · intro h
    rw [wait_on_program, if_pos h]
  · intro h1 h2
    rw [wait_on_program, if_neg (by omega), if_pos h2]
  · intro h1 h2
    have hne : ¬(rv ≠ prog.pid) := by simp [h2]
    rw [wait_on_program, if_neg (by omega), if_neg hne]
    have hub : wexitstatus status ≤ 255 := by
      rw [wexitstatus]
      omega
    constructor
    · exact_mod_cast Nat.zero_le _
    · exact_mod_cast hub

theorem C9_wait_failures_witness :
    wait_on_program ⟨["b"], 1, 6, -1, -1⟩ 6 (mkExitStatus 200) ≤ 255 :=
  ((C9_wait_failures ⟨["b"], 1, 6, -1, -1⟩ 6 (mkExitStatus 200)).2.2
    (by norm_num) rfl).2

/-- C4 (counterexample): three stages, the second `pipe` call fails: the
process dies at once with "pipe() failed." while descriptors 3 and 4 of
the already-created first pipe are still open — the already-created pipes
are not closed before the error propagates, contradicting the claim. -/
theorem C4_counterexample :
    prepare_pipes (some 1) 3 (progsOf [["a"], ["b"], ["c"]]) initialOS =
      .died "pipe() failed." ⟨5, [0, 1, 2, 3, 4]⟩ ∧
    (3 : Int) ∈ ([0, 1, 2, 3, 4] : List Int) ∧
    (3 : Int) ∉ initialOS.openFds := by
  refine ⟨rfl, by decide, by decide⟩

/-- C4 (amended): when pipe call `k` of an `N`-stage pipeline fails at
the OS level (`k < N-1`), `prepare_pipes` terminates the whole process
immediately through `die("pipe() failed.")`; the `2*k` endpoints of the
already-created pipes `0..k-1` remain open at termination (nothing closes
them on the failure path; they are reclaimed only by process exit). -/
theorem C4_pipe_failure (N k : Nat) (progs : Nat → Program) (st : OSState)
    (hk : k < N - 1) :
    prepare_pipes (some k) N progs st =
      .died "pipe() failed."
        ⟨st.nextFd + 2 * (k : Int), st.openFds ++ fdList st.nextFd (2 * k)⟩ ∧
    (fdList st.nextFd (2 * k)).length = 2 * k := by
  constructor
  · rw [prepare_pipes]
    have h0 : (some k : Option Nat) = some (0 + k) := by norm_num
    rw [h0, prepare_go_died k (N - 1) 0 progs st (by omega)]
  · exact fdList_length _ _

theorem C4_pipe_failure_witness :
    prepare_pipes (some 1) 3 (progsOf [["a"], ["b"], ["c"]]) initialOS =
      .died "pipe() failed."
        ⟨initialOS.nextFd + 2 * (1 : Int),
         initialOS.openFds ++ fdList initialOS.nextFd (2 * 1)⟩ :=
  (C4_pipe_failure 3 1 (progsOf [["a"], ["b"], ["c"]]) initialOS (by norm_num)).1

/-- C5 (counterexample): for the token list `["--"]`, the delimiter is
the final token with nothing after it, yet parsing fails with the
empty-stage error ("Empty program."), not the trailing-delimiter error:
the first group, which is empty, is detected first.  So the claim's
"trailing-delimiter error exactly when the delimiter is the final token
with nothing after it" is false of the code. -/
theorem C5_counterexample :
    parse_command_line MAX_NUM_PROGRAMS ["--"] = .error .emptyProgram ∧
    ParseError.emptyProgram ≠ ParseError.lastEmpty := by
  refine ⟨rfl, by decide⟩

/-- C5 (amended): scanning left to right, the parser reports the first
applicable error, as characterised exactly by `parseSpec` over the
delimiter-split groups (writing `E` for the first empty group's index and
`L` for the group count): success when `E = L ∧ L ≤ 10`; "Empty program."
when `E + 1 < L ∧ E < 10`; "Last program is empty." when
`E + 1 = L ∧ L ≤ 11`; "Too many programs." otherwise.  On well-formed
input the groups are returned in order, and every configuration error
aborts `main` before any pipe is created or any process forked: the run's
outcome is independent of the pipe/fork/wait oracles and contains no
stage event. -/
theorem C5_parse_errors (toks : List String) (hne : toks ≠ []) :
    parse_command_line MAX_NUM_PROGRAMS toks =
      parseSpec MAX_NUM_PROGRAMS (splitGroups toks) ∧
    (∀ e, parse_command_line MAX_NUM_PROGRAMS toks = .error e →
      ∀ failAt pids execOks waitRv waitStatus,
        run_main toks failAt pids execOks waitRv waitStatus =
          ⟨[], some (parseErrMsg e), EXIT_FAILURE⟩) := by
  refine ⟨parse_eq_parseSpec _ _ hne, ?_⟩
  intro e hp failAt pids execOks waitRv waitStatus
  exact run_main_config_error toks e hne hp failAt pids execOks waitRv waitStatus

theorem C5_parse_errors_witness :
    parse_command_line MAX_NUM_PROGRAMS ["a", "--", "b"] =
      parseSpec MAX_NUM_PROGRAMS (splitGroups ["a", "--", "b"]) :=
  (C5_parse_errors ["a", "--", "b"] (by simp)).1

/-- C2: in the child forked by `start_program(cur)` for an `N`-stage
pipeline: stdin is redirected (`dup2` onto descriptor 0) from the stage's
`fd_in` exactly when `cur > 0` and stdout onto descriptor 1 from its
`fd_out` exactly when `cur < N-1`; after the redirections the child
closes precisely the still-held endpoint fields (`>= 0`) of every stage
with index `>= cur` — including the descriptors it just duplicated from —
and only then replaces its image via `execvp`; if the exec fails the
child exits with `EXIT_FAILURE`, while a successful exec never returns,
and the parent's observable outcome does not depend on whether the
child's exec succeeds. -/
theorem C2_child_behaviour (progs : Nat → Program) (N cur : Nat) (execOk : Bool)
    (forkRes : Int) (st : OSState) (hcur : cur < N) :
    (child_trace progs N cur execOk =
      (if 0 < cur then [Action.dup2 (progs cur).fd_in FD_STDIN] else []) ++
      (if cur ≠ N - 1 then [Action.dup2 (progs cur).fd_out FD_STDOUT] else []) ++
      (closeList progs N cur).map Action.close ++
      [Action.exec (progs cur).argv.headI (progs cur).argv] ++
      (if execOk then [] else [Action.exit EXIT_FAILURE])) ∧
    (∀ fd, Action.close fd ∈ child_trace progs N cur execOk ↔
      0 ≤ fd ∧ ∃ i, cur ≤ i ∧ i < N ∧
        ((progs i).fd_in = fd ∨ (progs i).fd_out = fd)) ∧
    (0 < cur → 0 ≤ (progs cur).fd_in →
      Action.close (progs cur).fd_in ∈ child_trace progs N cur execOk) ∧
    (Action.exit EXIT_FAILURE ∈ child_trace progs N cur false) ∧
    (∀ code, Action.exit code ∉ child_trace progs N cur true) ∧
    parentView (start_program progs N cur forkRes true st) =
      parentView (start_program progs N cur forkRes false st) := by
  have hiff : ∀ fd, Action.close fd ∈ child_trace progs N cur execOk ↔
      Action.close fd ∈ (closeList progs N cur).map Action.close := by
    intro fd
    simp only [child_trace, List.mem_append, List.mem_singleton]
    constructor
    · rintro ((((h | h) | h) | h) | h)
      · split_ifs at h <;> simp_all
      · split_ifs at h <;> simp_all
      · exact h
      · simp at h
      · cases execOk <;> simp_all
    · intro h
      left
      left
      right
      exact h
  refine ⟨rfl, ?_, ?_, ?_, ?_, ?_⟩
  · intro fd
    rw [hiff fd]
    exact mem_closeList progs N cur (by omega) fd
  · intro h0 hge
    rw [hiff]
    exact (mem_closeList progs N cur (by omega) _).mpr
      ⟨hge, cur, Nat.le_refl cur, hcur, Or.inl rfl⟩
  · simp [child_trace]
  · intro code
    simp [child_trace]
  · by_cases hf : forkRes < 0
    · rw [start_program, start_program, if_pos hf, if_pos hf]
    · rw [start_program, start_program, if_neg hf, if_neg hf]
      dsimp only
      cases h1 : (if 0 < cur ∧ 0 ≤ (progs cur).fd_in
          then closeFd st (progs cur).fd_in else Outcome.ok st) with
      | died m s => simp only [h1]
      | ok st1 =>
        simp only [h1]
        cases h2 : (if cur ≠ N - 1 ∧ 0 ≤ (progs cur).fd_out
            then closeFd st1 (progs cur).fd_out else Outcome.ok st1) with
        | died m s => simp only [h2]
        | ok st2 =>
          simp only [h2]
          rfl

theorem C2_child_behaviour_witness :
    Action.close 3 ∈
      child_trace (setFdIn (setFdOut (progsOf [["a"], ["b"]]) 0 4) 1 3) 2 1 true :=
  ((C2_child_behaviour (setFdIn (setFdOut (progsOf [["a"], ["b"]]) 0 4) 1 3) 2 1
      true 9 initialOS (by norm_num)).2.2.1 (by norm_num) (by decide))

/-- C3: after `start_program(cur)` returns in the parent, the stage's two
endpoint fields are released (`fd_in = fd_out = -1`) and the child pid
recorded; and end to end, launching all `N` stages after a successful
`prepare_pipes` leaves the orchestrator process holding exactly its three
standard descriptors — zero pipe endpoints. -/
theorem C3_no_fd_leak (G : List (List String)) (pids : Nat → Int)
    (execOks : Nat → Bool) (hpids : ∀ j, 0 ≤ pids j) :
    (∀ (progs : Nat → Program) (N cur : Nat) (forkRes : Int) (execOk : Bool)
        (st : OSState) (p : Nat → Program) (s : OSState) (tr : List Action),
      start_program progs N cur forkRes execOk st = .ok (p, s, tr) →
      (p cur).fd_in = -1 ∧ (p cur).fd_out = -1 ∧ (p cur).pid = forkRes) ∧
    (∀ progs1 st1,
      prepare_pipes none G.length (progsOf G) initialOS = .ok (progs1, st1) →
      ∃ evs progs2, launch_loop pids execOks G.length 0 progs1 st1 =
          (evs, .ok (progs2, ⟨st1.nextFd, [0, 1, 2]⟩)) ∧
        ∀ j < G.length, (progs2 j).fd_in = -1 ∧ (progs2 j).fd_out = -1 ∧
          (progs2 j).pid = pids j) := by
  constructor
  · intro progs N cur forkRes execOk st p s tr h
    exact start_program_releases progs N cur forkRes execOk st p s tr h
  · intro progs1 st1 h
    have hprep := prepare_go_ok (G.length - 1) 0 (progsOf G) initialOS
    have hinit : initialOS.nextFd = 3 := rfl
    have hinitfds : initialOS.openFds = [0, 1, 2] := rfl
    rw [hinit, hinitfds] at hprep
    rw [prepare_pipes, hprep] at h
    simp only [Outcome.ok.injEq, Prod.mk.injEq] at h
    rcases h with ⟨hp1, hs1⟩
    subst hp1
    subst hs1
    have hlp0 : launchedProgs G 3 pids G.length 0 =
        pipedAt (progsOf G) 3 0 (G.length - 1) := by
      funext j
      rw [launchedProgs, if_neg (by omega)]
    have hlaunch := launch_go G 3 (3 + 2 * ((G.length - 1 : Nat) : Int)) pids execOks
      [0, 1, 2] G.length (by omega) (by intro fd hfd; fin_cases hfd <;> norm_num) hpids
      G.length 0 (by omega)
    rw [hlp0, pipeOpen_zero, pipeOpen_end] at hlaunch
    refine ⟨(List.range' 0 G.length).map fun j => Event.starting j (G.getD j []).headI,
      launchedProgs G 3 pids G.length G.length, ?_, ?_⟩
    · rw [hlaunch]
      simp
    · intro j hj
      rw [launchedProgs, if_pos hj]
      exact ⟨rfl, rfl, rfl⟩

theorem C3_no_fd_leak_witness :
    ∃ evs progs2,
      launch_loop (fun _ => (9 : Int)) (fun _ => true) 2 0
          (setFdIn (setFdOut (progsOf [["a"], ["b"]]) 0 4) 1 3) ⟨5, [0, 1, 2, 3, 4]⟩ =
        (evs, .ok (progs2, ⟨5, [0, 1, 2]⟩)) ∧
      ∀ j < 2, (progs2 j).fd_in = -1 ∧ (progs2 j).fd_out = -1 ∧
        (progs2 j).pid = 9 :=
  (C3_no_fd_leak [["a"], ["b"]] (fun _ => 9) (fun _ => true) (fun j => by norm_num)).2
    (setFdIn (setFdOut (progsOf [["a"], ["b"]]) 0 4) 1 3) ⟨5, [0, 1, 2, 3, 4]⟩ rfl

/-- C6: building the pipe graph for `N >= 1` parsed stages from the
standard initial state creates exactly `N-1` pipes (the descriptor table
grows by `2*(N-1)` endpoints); pipe `i`'s write end (descriptor
`3 + 2i + 1`) goes to stage `i`'s `fd_out` and its read end (descriptor
`3 + 2i`) to stage `i+1`'s `fd_in`; stage 0 keeps no pipe read end and
stage `N-1` no pipe write end (both stay `-1`); for `N = 1` no pipe is
created at all. -/
theorem C6_pipe_graph (G : List (List String)) (N : Nat) (hN : N = G.length)
    (h1 : 1 ≤ N) :
    ∃ P S, prepare_pipes none N (progsOf G) initialOS = .ok (P, S) ∧
      S.openFds.length = 3 + 2 * (N - 1) ∧
      (∀ i, i + 1 < N → (P i).fd_out = 3 + 2 * (i : Int) + 1 ∧
        (P (i + 1)).fd_in = 3 + 2 * (i : Int)) ∧
      (P 0).fd_in = -1 ∧
      (P (N - 1)).fd_out = -1 ∧
      (N = 1 → S.openFds = [0, 1, 2]) := by
  have hprep := prepare_go_ok (N - 1) 0 (progsOf G) initialOS
  have hinit : initialOS.nextFd = 3 := rfl
  have hinitfds : initialOS.openFds = [0, 1, 2] := rfl
  rw [hinit, hinitfds] at hprep
  refine ⟨pipedAt (progsOf G) 3 0 (N - 1),
    ⟨3 + 2 * ((N - 1 : Nat) : Int), [0, 1, 2] ++ fdList 3 (2 * (N - 1))⟩,
    by rw [prepare_pipes]; exact hprep, ?_, ?_, ?_, ?_, ?_⟩
  · simp only [List.length_append, fdList_length, List.length_cons, List.length_nil]
  · intro i hi
    constructor
    · simp only [pipedAt]
      rw [if_pos (by omega : 0 ≤ i ∧ i < 0 + (N - 1))]
      push_cast
      ring
    · simp only [pipedAt]
      rw [if_pos (by omega : 0 < i + 1 ∧ i + 1 ≤ 0 + (N - 1))]
      push_cast
      ring
  · simp only [pipedAt]
    rw [if_neg (by omega : ¬(0 < 0 ∧ 0 ≤ 0 + (N - 1)))]
    simp [progsOf, init_program]
  · simp only [pipedAt]
    rw [if_neg (by omega : ¬(0 ≤ N - 1 ∧ N - 1 < 0 + (N - 1)))]
    simp [progsOf, init_program]
  · intro hN1
    subst hN1
    rfl

theorem C6_pipe_graph_witness :
    ∃ P S, prepare_pipes none 3 (progsOf [["a"], ["b"], ["c"]]) initialOS =
        .ok (P, S) ∧
      S.openFds.length = 3 + 2 * (3 - 1) ∧
      (∀ i, i + 1 < 3 → (P i).fd_out = 3 + 2 * (i : Int) + 1 ∧
        (P (i + 1)).fd_in = 3 + 2 * (i : Int)) ∧
      (P 0).fd_in = -1 ∧
      (P (3 - 1)).fd_out = -1 ∧
      (3 = 1 → S.openFds = [0, 1, 2]) :=
  C6_pipe_graph [["a"], ["b"], ["c"]] 3 rfl (by norm_num)

/-- C7: for any command line that parses into `N >= 1` stages, when every
pipe call and every fork succeeds and each stage's `waitpid` returns its
recorded pid, the orchestrator first prints the start lines for stages
`0..N-1` in index order, then for each stage in the same index order a
waiting line followed by its exit report, then the final message, and
exits 0; in particular the per-stage exit reports are exactly `N`, one
per stage, in launch order. -/
theorem C7_launch_wait_order (tokens : List String) (G : List (List String))
    (pids : Nat → Int) (execOks : Nat → Bool) (waitStatus : Nat → Nat)
    (hne : tokens ≠ [])
    (hparse : parse_command_line MAX_NUM_PROGRAMS tokens = .ok G)
    (hpids : ∀ j, 0 ≤ pids j) :
    run_main tokens none pids execOks pids waitStatus =
      ⟨((List.range' 0 G.length).map fun j => Event.starting j (stageName G j)) ++
        ((List.range' 0 G.length).flatMap fun j =>
          [Event.waiting j (stageName G j),
           Event.exited j (stageName G j) ((wexitstatus (waitStatus j) : Int))]) ++
        [Event.parentDone], none, 0⟩ ∧
    ((run_main tokens none pids execOks pids waitStatus).events.filter Event.isExited) =
      (List.range' 0 G.length).map fun j =>
        Event.exited j (stageName G j) ((wexitstatus (waitStatus j) : Int)) := by
  have hrun := run_main_ok tokens G pids execOks pids waitStatus hne hparse hpids
  have hres : ∀ j, waitResult (pids j) (pids j) (waitStatus j) =
      (wexitstatus (waitStatus j) : Int) := by
    intro j
    rw [waitResult, if_neg (by have := hpids j; omega), if_neg (by simp)]
  have hrun2 : run_main tokens none pids execOks pids waitStatus =
      ⟨((List.range' 0 G.length).map fun j => Event.starting j (stageName G j)) ++
        ((List.range' 0 G.length).flatMap fun j =>
          [Event.waiting j (stageName G j),
           Event.exited j (stageName G j) ((wexitstatus (waitStatus j) : Int))]) ++
        [Event.parentDone], none, 0⟩ := by
    rw [hrun]
    have hB := flatMap_congr_mem (l := List.range' 0 G.length)
      (f := fun j => [Event.waiting j (stageName G j),
        Event.exited j (stageName G j) (waitResult (pids j) (pids j) (waitStatus j))])
      (g := fun j => [Event.waiting j (stageName G j),
        Event.exited j (stageName G j) ((wexitstatus (waitStatus j) : Int))])
      (fun j _ => by dsimp only; rw [hres j])
    rw [hB]
  refine ⟨hrun2, ?_⟩
  rw [hrun2]
  show ((((List.range' 0 G.length).map fun j => Event.starting j (stageName G j)) ++
      ((List.range' 0 G.length).flatMap fun j =>
        [Event.waiting j (stageName G j),
         Event.exited j (stageName G j) ((wexitstatus (waitStatus j) : Int))]) ++
      [Event.parentDone]).filter Event.isExited) = _
  rw [List.filter_append, List.filter_append]
  rw [filter_starting_events, filter_wait_events]
  simp [Event.isExited]

/-- C8: whenever parsing, all pipe calls and all forks succeed, the
orchestrator's own exit code is 0 after the full wait phase, regardless
of what the per-stage wait calls return; a stage whose `waitpid` errors
(returns something other than the recorded pid) is reported for that
stage with status `-1`, and the orchestrator still produces an exit
report for every one of the `N` stages instead of aborting. -/
theorem C8_wait_errors_do_not_abort (tokens : List String) (G : List (List String))
    (pids : Nat → Int) (execOks : Nat → Bool) (waitRv : Nat → Int)
    (waitStatus : Nat → Nat)
    (hne : tokens ≠ [])
    (hparse : parse_command_line MAX_NUM_PROGRAMS tokens = .ok G)
    (hpids : ∀ j, 0 ≤ pids j) :
    (run_main tokens none pids execOks waitRv waitStatus).exitCode = 0 ∧
    ((run_main tokens none pids execOks waitRv waitStatus).events.filter
        Event.isExited) =
      (List.range' 0 G.length).map (fun j =>
        Event.exited j (stageName G j)
          (waitResult (pids j) (waitRv j) (waitStatus j))) ∧
    (∀ j, j < G.length → waitRv j ≠ pids j →
      Event.exited j (stageName G j) (-1) ∈
        (run_main tokens none pids execOks waitRv waitStatus).events) := by
  have hrun := run_main_ok tokens G pids execOks waitRv waitStatus hne hparse hpids
  have hfilter : ((run_main tokens none pids execOks waitRv waitStatus).events.filter
      Event.isExited) =
      (List.range' 0 G.length).map (fun j =>
        Event.exited j (stageName G j)
          (waitResult (pids j) (waitRv j) (waitStatus j))) := by
    rw [hrun]
    show ((((List.range' 0 G.length).map fun j => Event.starting j (stageName G j)) ++
        ((List.range' 0 G.length).flatMap fun j =>
          [Event.waiting j (stageName G j),
           Event.exited j (stageName G j)
             (waitResult (pids j) (waitRv j) (waitStatus j))]) ++
        [Event.parentDone]).filter Event.isExited) = _
    rw [List.filter_append, List.filter_append]
    rw [filter_starting_events, filter_wait_events]
    simp [Event.isExited]
  refine ⟨by rw [hrun], hfilter, ?_⟩
  intro j hj hrv
  have hwr : waitResult (pids j) (waitRv j) (waitStatus j) = -1 := by
    rw [waitResult, if_neg (by have := hpids j; omega), if_pos hrv]
  have hmem : Event.exited j (stageName G j) (-1) ∈
      ((run_main tokens none pids execOks waitRv waitStatus).events.filter
        Event.isExited) := by
    rw [hfilter]
    refine List.mem_map.mpr ⟨j, List.mem_range'_1.mpr (by omega), ?_⟩
    rw [hwr]
  exact List.mem_of_mem_filter hmem

/-- C10: the configured maximum stage count is `MAX_NUM_PROGRAMS = 10`:
a well-formed command line (all delimiter-separated groups nonempty)
parses successfully when it has at most 10 groups and fails with
"Too many programs." when it has more; moreover the failure fires as soon
as an 11th group begins — whenever the first 10 groups are nonempty and
more than 11 groups arise, the error is "Too many programs." no matter
what the groups beyond the 10th contain. -/
theorem C10_max_programs (toks : List String) :
    MAX_NUM_PROGRAMS = 10 ∧
    (toks ≠ [] → (∀ g ∈ splitGroups toks, g ≠ []) →
      ((splitGroups toks).length ≤ 10 →
        parse_command_line MAX_NUM_PROGRAMS toks = .ok (splitGroups toks)) ∧
      (10 < (splitGroups toks).length →
        parse_command_line MAX_NUM_PROGRAMS toks = .error .tooMany)) ∧
    (toks ≠ [] → (∀ j, j < 10 → (splitGroups toks).getD j [] ≠ []) →
      11 < (splitGroups toks).length →
      parse_command_line MAX_NUM_PROGRAMS toks = .error .tooMany) := by
  have hmax : MAX_NUM_PROGRAMS = 10 := rfl
  refine ⟨rfl, ?_, ?_⟩
  · intro hne hwf
    have hEL : firstEmptyIdx (splitGroups toks) = (splitGroups toks).length :=
      (firstEmptyIdx_eq_length_iff (splitGroups toks)).mpr hwf
    rw [parse_eq_parseSpec MAX_NUM_PROGRAMS toks hne, parseSpec]
    constructor
    · intro hL
      rw [if_pos ⟨hEL, hL⟩]
    · intro hL
      rw [if_neg (by omega), if_neg (by omega), if_neg (by omega)]
  · intro hne hpre hL
    have hE_le := firstEmptyIdx_le (splitGroups toks)
    have hE10 : 10 ≤ firstEmptyIdx (splitGroups toks) := by
      by_contra hcon
      refine hpre (firstEmptyIdx (splitGroups toks)) (by omega) ?_
      exact firstEmptyIdx_getD (splitGroups toks) (by omega)
    rw [parse_eq_parseSpec MAX_NUM_PROGRAMS toks hne, parseSpec]
    rw [if_neg (by omega), if_neg (by omega), if_neg (by omega)]

theorem C7_launch_wait_order_witness :
    ((run_main ["a", "--", "b"] none (fun _ => 4) (fun _ => true) (fun _ => 4)
        (fun _ => mkExitStatus 7)).events.filter Event.isExited) =
      (List.range' 0 ([["a"], ["b"]] : List (List String)).length).map fun j =>
        Event.exited j (stageName [["a"], ["b"]] j)
          ((wexitstatus (mkExitStatus 7) : Int)) :=
  (C7_launch_wait_order ["a", "--", "b"] [["a"], ["b"]] (fun _ => 4) (fun _ => true)
    (fun _ => mkExitStatus 7) (by simp) (by rfl) (fun j => by norm_num)).2

theorem C8_wait_errors_do_not_abort_witness :
    Event.exited 1 (stageName [["a"], ["b"]] 1) (-1) ∈
      (run_main ["a", "--", "b"] none (fun _ => 4) (fun _ => true)
        (fun j => if j = 1 then 0 else 4) (fun _ => 0)).events :=
  (C8_wait_errors_do_not_abort ["a", "--", "b"] [["a"], ["b"]] (fun _ => 4)
    (fun _ => true) (fun j => if j = 1 then 0 else 4) (fun _ => 0) (by simp) (by rfl)
    (fun j => by norm_num)).2.2 1 (by norm_num) (by norm_num)

theorem C10_max_programs_witness :
    parse_command_line MAX_NUM_PROGRAMS
      ["a", "--", "a", "--", "a", "--", "a", "--", "a", "--", "a", "--", "a", "--",
       "a", "--", "a", "--", "a", "--", "a"] = .error .tooMany :=
  ((C10_max_programs
      ["a", "--", "a", "--", "a", "--", "a", "--", "a", "--", "a", "--", "a", "--",
       "a", "--", "a", "--", "a", "--", "a"]).2.1 (by simp) (by decide)).2 (by decide)

end RunPipeline
